import Mathlib

/-!
Verification development for the eevee conversation orchestrator.

Shallow embedding of `src/eevee/chatbot.py` and `src/eevee/tools.py`.
The message-history module (`Messages`, `Message`, `ChatMessagePiece`) and
`tool_display_message` are not part of the sources at hand; those pieces
are modelled from the specification (spec.md sections 3 and 4.1) and carry
a doc comment saying so.  External effects (network, the DuckDuckGo search
library, HTTP fetching, logging) are modelled as explicit function
parameters; logging side effects are elided except where the behaviour is
observable to the caller.
-/

set_option autoImplicit false
set_option maxRecDepth 8192

namespace Eevee

/-- Role of a conversation message (closed enum, spec section 3). -/
inductive Role where
  | system
  | user
  | assistant
  | tool
deriving DecidableEq, Repr

/-- A Python-level exception, reduced to its class name and message text. -/
structure PyError where
  cls : String
  msg : String
deriving DecidableEq, Repr

/-- Keyword-argument mapping handed to a tool callable. -/
abbrev Args := List (String × String)

/-- A single requested tool invocation (spec section 3). -/
structure ToolCall where
  id : String
  function : String
  arguments : Args
deriving DecidableEq, Repr

/-- Modelled from the spec: the `Message` record of the absent messages
module (spec section 3): role, optional content, tool calls, producing
model, and the displayed flag. -/
structure Message where
  role : Role
  content : Option String
  tool_calls : List ToolCall
  model : Option String
  displayed : Bool
deriving DecidableEq, Repr

/-- Modelled from the spec: one lazily produced fragment of an in-progress
turn (spec section 3, `ChatMessagePiece`). -/
structure ChatMessagePiece where
  content : Option String
  tool_calls : List ToolCall
  info_message : Option String
  model : Option String
deriving DecidableEq, Repr

/-- Modelled from the spec: the displayed flag assigned at append time.
Tool-plumbing messages default to non-displayed unless they carry
user-visible content (spec section 3). -/
def displayedFor (role : Role) (content : Option String) : Bool :=
  match role with
  | .user => content.isSome
  | .assistant => content.isSome
  | _ => false

/-- Build a `Message` the way the message log's `append` does. -/
def mkMessage (role : Role) (content : Option String)
    (tool_calls : List ToolCall) (model : Option String) : Message :=
  ⟨role, content, tool_calls, model, displayedFor role content⟩

namespace Messages

/-- Modelled from the spec: `append(role, content, tool_calls?, model?)`
of the absent messages module (spec section 4.1). -/
def append (log : List Message) (role : Role) (content : Option String)
    (tool_calls : List ToolCall) (model : Option String) : List Message :=
  log ++ [mkMessage role content tool_calls model]

/-- Modelled from the spec: `edit(index, content=...)` replaces the field
in place (spec section 4.1); used by the orchestrator only at index 0. -/
def edit (log : List Message) (i : Nat) (content : String) : List Message :=
  match log.get? i with
  | none => log
  | some m => log.set i { m with content := some content }

/-- Modelled from the spec: the `update` merge rule for `content` is
additive (concatenate), spec section 4.1. -/
def mergeContent : Option String → Option String → Option String
  | none, n => n
  | some o, none => some o
  | some o, some n => some (o ++ n)

/-- Modelled from the spec: `update(last_index, content=...)` merges the
content delta into the last message (spec section 4.1).  The orchestrator
only calls it at the last index, after checking the log is non-empty. -/
def updateContent (log : List Message) (c : Option String) : List Message :=
  match log.getLast? with
  | none => log
  | some m => log.dropLast ++ [{ m with content := mergeContent m.content c }]

/-- Modelled from the spec: `update(last_index, tool_calls=...)` replaces
the `tool_calls` field of the last message (spec section 4.1). -/
def updateToolCalls (log : List Message) (tcs : List ToolCall) : List Message :=
  match log.getLast? with
  | none => log
  | some m => log.dropLast ++ [{ m with tool_calls := tcs }]

end Messages

/-- The EmptyLogError raised by `pop` / `last_message_index` / indexed
access on an empty log (spec sections 4.1 and 7). -/
def emptyLogError : PyError := ⟨"EmptyLogError", "the message log is empty"⟩

/-! ## tools.py -/

/-- One DuckDuckGo search result, as the dictionary the library returns:
a key-to-value map where a present key may still hold a Python `None`. -/
abbrev SearchResult := List (String × Option String)

/-- Python dictionary access `result[key]`: raises `KeyError` when the key
is absent, otherwise returns the stored value (possibly `None`). -/
def dictGet (r : SearchResult) (k : String) : Except PyError (Option String) :=
  match r.lookup k with
  | none => .error ⟨"KeyError", k⟩
  | some v => .ok v

/-- The body of the `for result in tqdm(results)` loop of `web_search`
(tools.py lines 40 to 46), inside its `try` block: skip results whose
`href` is `None`, render the others, and surface any dictionary-access
failure as the raised exception. -/
def collectOutputs : List SearchResult → Except PyError (List String)
  | [] => .ok []
  | r :: rest => do
    let href ← dictGet r "href"
    match href with
    | none => collectOutputs rest
    | some url => do
      let body ← dictGet r "body"
      let title ← dictGet r "title"
      let t := match title with | none => "" | some s => s
      let bodyText := match body with | none => "None" | some s => s
      let line := "Title: " ++ t ++ "\nURL: " ++ url ++ "\nDescription: "
          ++ bodyText ++ "\n"
      let rest2 ← collectOutputs rest
      .ok (line :: rest2)

/-- The clamping of `max_results` at the top of `web_search`
(tools.py lines 31 and 32). -/
def clampMaxResults (n : Int) : Int :=
  if n < 1 then 1 else if n > 10 then 10 else n

/-- `web_search` (tools.py lines 16 to 55).  The DuckDuckGo text search is
a parameter `ddgsText`; crucially, the source calls it at line 37, outside
the `try` block that starts at line 39, so a failure of the search call
itself propagates out of the function (hence the `Except` result), while a
failure inside the result loop is caught and rendered as an error string. -/
def web_search (ddgsText : String → Int → Except PyError (List SearchResult))
    (query : String) (max_results : Int) : Except PyError String :=
  let mr := clampMaxResults max_results
  match ddgsText query mr with
  | .error e => .error e
  | .ok results =>
    match collectOutputs results with
    | .error e => .ok ("Error while searching the web: " ++ e.msg)
    | .ok outputs =>
      if outputs.isEmpty then .ok "No results"
      else .ok (String.intercalate "\n=====\n" outputs)

/-- `surf` (tools.py lines 58 to 79).  The whole body sits inside a `try`
block, so every failure is rendered as an `"ERROR: ..."` string and the
function always returns normally.  The HTTP fetch is a parameter returning
status code and page content; the BeautifulSoup text extraction plus the
whitespace clean-up (external library plus regexes) is the `clean`
parameter. -/
def surf (fetch : String → Except PyError (Int × String))
    (clean : String → String) (url : String) : String :=
  let attempt : Except PyError String := do
    let (status, text) ← fetch url
    if status = 200 then
      pure (clean text)
    else
      Except.error ⟨"RuntimeError",
        "ERROR: Failed to retrieve the webpage. Status code: " ++ toString status⟩
  match attempt with
  | .ok t => t
  | .error e => "ERROR: " ++ e.msg

/-- Name and documentation text of a registered tool callable. -/
structure FuncDecl where
  name : String
  doc : String
deriving DecidableEq, Repr

/-- A parameter schema fragment, as the dictionaries of
`tools_params_definitions` (tools.py lines 83 to 87). -/
structure SchemaFragment where
  type_ : String
  description : String
deriving DecidableEq, Repr

/-- One declared tool parameter: `(name, schema fragment, required)`. -/
structure ParamSpec where
  name : String
  schema : SchemaFragment
  required : Bool
deriving DecidableEq, Repr

/-- `tools_params_definitions` (tools.py lines 83 to 87): the static
registry mapping each tool callable to its ordered parameter specs.  The
`doc` fields carry the docstring text of `web_search` and `surf`. -/
def tools_params_definitions : List (FuncDecl × List ParamSpec) :=
  [ (⟨"web_search",
      "Searched the web for the provided query, and returns the title, URL and description of the results.\nSearch results are separated by: =====\n\nExample of two search results:\n\nTitle: Welcome to My Site\nURL: http://www.mysite.xyz\nDescription: This is my private website, see my stuff here\n=====\nTitle: Grapes Online\nURL: http://www.grapes.com\nDescription: This is the number one site for grapes fans and lovers"⟩,
     [ ⟨"query", ⟨"string", "The query to search on the web"⟩, true⟩,
       ⟨"max_results", ⟨"number", "Maximal number of results to retrieve. Must be between 1 and 10, default is 10."⟩, false⟩ ]),
    (⟨"surf",
      "Surfs to the provided URL and returns a simple version of the page text. Images and styling are excluded."⟩,
     [ ⟨"url", ⟨"string", "The URL of the page to scrape"⟩, true⟩ ]) ]

/-! ## chatbot.py: tool schema -/

/-- The inner `function` object of a tool descriptor built by
`Chatbot._build_tools` (chatbot.py lines 58 to 68). -/
structure ToolFunctionSchema where
  name : String
  description : String
  parameters_type : String
  properties : List (String × SchemaFragment)
  required : List String
deriving DecidableEq, Repr

/-- One tool descriptor as built by `Chatbot._build_tools`: note the
source places `required` beside `parameters`, not inside it. -/
structure ToolSchema where
  type_ : String
  function : ToolFunctionSchema
deriving DecidableEq, Repr

/-- `Chatbot._build_tools` (chatbot.py lines 48 to 70): one descriptor per
registered callable, in registry order.  The source accumulates `params`
as a dict keyed by parameter name and `required` as a list; parameter
names in the registry are distinct, so the dict is the ordered pair
list. -/
def _build_tools (defs : List (FuncDecl × List ParamSpec)) : List ToolSchema :=
  defs.map fun fv =>
    { type_ := "function"
      function :=
        { name := fv.1.name
          description := fv.1.doc
          parameters_type := "object"
          properties := fv.2.map fun p => (p.name, p.schema)
          required := (fv.2.filter fun p => p.required).map fun p => p.name } }

/-! ## chatbot.py: the orchestrator loop

The Provider Connector is an external collaborator; it is modelled as a
function from (backend-call index, current message log, tool schema list)
to the fragments it yields plus an optional exception raised while
iterating its output (a failure when creating the generator is the case
of zero fragments plus an error).  The call index is instrumentation: the
source simply calls the connector once per loop round with the
then-current log.  `model` and `temperature` are passed through unchanged
by the source; `temperature` plays no role in any observable behaviour
and is elided. -/

/-- A provider connector: call index, current log and tool schemas in;
yielded fragments plus optional raised exception out. -/
abbrev Connector := Nat → List Message → List ToolSchema →
  List ChatMessagePiece × Option PyError

/-- The `self.callables` registry (chatbot.py line 26): tool name to the
callable; a callable returns its string output or raises. -/
abbrev Callables := String → Option (Args → Except PyError String)

/-- Modelled from the spec: `tool_display_message` is imported by
chatbot.py from the tools module but absent from the sources at hand; the
spec says the fragment's `info_message` describes the pending call, so it
is kept as an abstract renderer from tool name and arguments to text. -/
abbrev Tdm := String → Args → String

/-- Observable events of a turn, in order: each backend call with the
tool schemas passed to it, each fragment yielded to the caller, each tool
invocation, and each `tool`-role message appended to the log. -/
inductive Event where
  | backendCall (round : Nat) (tools : List ToolSchema)
  | yieldPiece (p : ChatMessagePiece)
  | invokeTool (name : String) (args : Args)
  | appendTool (m : Message)
deriving DecidableEq, Repr

/-- Whether an event is a backend call. -/
def Event.isBackendCall : Event → Bool
  | .backendCall _ _ => true
  | _ => false

/-- Result of processing tool calls or fragments: the log, the emitted
events, whether any fragment carried tool calls (`final_message` set to
false), and an optional exception. -/
structure StepResult where
  log : List Message
  events : List Event
  hadTool : Bool
  error : Option PyError
deriving DecidableEq, Repr

/-- Looking up and invoking a tool (chatbot.py lines 120 and 150):
an unregistered name raises `KeyError`, otherwise the callable runs. -/
def toolOutputE (callables : Callables) (tc : ToolCall) : Except PyError String :=
  match callables tc.function with
  | none => .error ⟨"KeyError", tc.function⟩
  | some f => f tc.arguments

/-- The info fragment yielded before running a tool
(chatbot.py lines 118 and 148). -/
def infoPiece (tdm : Tdm) (tc : ToolCall) : ChatMessagePiece :=
  ⟨none, [], some (tdm tc.function tc.arguments), none⟩

/-- The `tool`-role message appended after a successful invocation
(chatbot.py lines 122 and 152), tagged with the originating call. -/
def toolResultMessage (out : String) (tc : ToolCall) : Message :=
  mkMessage .tool (some out) [tc] none

/-- The `for tool_call in chat_piece.tool_calls` body shared by both
entry points (chatbot.py lines 117 to 122 and 147 to 152): yield the info
fragment, look up and invoke the callable, append the result as a
`tool`-role message; a raised exception stops the iteration there. -/
def processToolCalls (callables : Callables) (tdm : Tdm)
    (log : List Message) : List ToolCall → List Message × List Event × Option PyError
  | [] => (log, [], none)
  | tc :: rest =>
    let evInfo := Event.yieldPiece (infoPiece tdm tc)
    match callables tc.function with
    | none => (log, [evInfo], some ⟨"KeyError", tc.function⟩)
    | some f =>
      match f tc.arguments with
      | .error e => (log, [evInfo, .invokeTool tc.function tc.arguments], some e)
      | .ok out =>
        let m := toolResultMessage out tc
        let r := processToolCalls callables tdm (log ++ [m]) rest
        (r.1, evInfo :: .invokeTool tc.function tc.arguments :: .appendTool m :: r.2.1,
          r.2.2)

/-- The fragment's `model` field stamped before it leaves the core
(chatbot.py lines 128 and 155). -/
def stamp (model : String) (p : ChatMessagePiece) : ChatMessagePiece :=
  { p with model := some model }

/-- Processing one fragment on the streaming path (chatbot.py lines 110
to 129).  The source tests `if chat_piece.tool_calls:` (truthy means
non-empty), rendered here as the `isEmpty` test with the branches
swapped.  Both branches index the log at `last_message_index`, which
raises `EmptyLogError` on an empty log. -/
def processPieceStream (callables : Callables) (tdm : Tdm) (model : String)
    (log : List Message) (p : ChatMessagePiece) : StepResult :=
  if p.tool_calls.isEmpty then
    match log.getLast? with
    | none => ⟨log, [], false, some emptyLogError⟩
    | some lastm =>
      let log1 := if lastm.role = Role.assistant
        then Messages.updateContent log p.content
        else Messages.append log .assistant p.content [] (some model)
      ⟨log1, [.yieldPiece (stamp model p)], false, none⟩
  else
    match log.getLast? with
    | none => ⟨log, [], true, some emptyLogError⟩
    | some lastm =>
      let log1 := if lastm.role = Role.assistant
        then Messages.updateToolCalls log p.tool_calls
        else Messages.append log .assistant none p.tool_calls (some model)
      let r := processToolCalls callables tdm log1 p.tool_calls
      ⟨r.1, r.2.1, true, r.2.2⟩

/-- Processing one fragment on the batch path (chatbot.py lines 143 to
156): unlike the streaming path, both branches always append a fresh
assistant message and never merge via `update`. -/
def processPieceJson (callables : Callables) (tdm : Tdm) (model : String)
    (log : List Message) (p : ChatMessagePiece) : StepResult :=
  if p.tool_calls.isEmpty then
    ⟨Messages.append log .assistant p.content [] (some model),
      [.yieldPiece (stamp model p)], false, none⟩
  else
    let log1 := Messages.append log .assistant none p.tool_calls (some model)
    let r := processToolCalls callables tdm log1 p.tool_calls
    ⟨r.1, r.2.1, true, r.2.2⟩

/-- The `for chat_piece in generator` loop over one backend call's
fragments, generic in the per-fragment step; a raised exception stops the
iteration at that fragment. -/
def processPieces (step : List Message → ChatMessagePiece → StepResult)
    (log : List Message) : List ChatMessagePiece → StepResult
  | [] => ⟨log, [], false, none⟩
  | p :: rest =>
    let r1 := step log p
    match r1.error with
    | some e => ⟨r1.log, r1.events, r1.hadTool, some e⟩
    | none =>
      let r2 := processPieces step r1.log rest
      ⟨r2.log, r1.events ++ r2.events, r1.hadTool || r2.hadTool, r2.error⟩

/-- One loop round: call the connector with the current log and the tool
schemas, then process its fragments.  If the fragments were all processed
without a raised exception, an exception raised by the connector itself
at the end of its output surfaces. -/
def runRound (step : List Message → ChatMessagePiece → StepResult)
    (tools : List ToolSchema) (conn : Connector) (round : Nat)
    (log : List Message) : StepResult :=
  let (pieces, connErr) := conn round log tools
  let r := processPieces step log pieces
  { log := r.log
    events := Event.backendCall round tools :: r.events
    hadTool := r.hadTool
    error := match r.error with | some e => some e | none => connErr }

/-- Outcome of the `while not final_message` loop: finished normally,
aborted by a raised exception, or ran out of modelling fuel (the source
loop is unbounded; every theorem supplies enough fuel). -/
inductive LoopOutcome where
  | finished
  | errored (e : PyError)
  | fuelOut
deriving DecidableEq, Repr

/-- Result of a whole turn's loop. -/
structure LoopResult where
  log : List Message
  events : List Event
  outcome : LoopOutcome
deriving DecidableEq, Repr

/-- The `while not final_message` loop (chatbot.py lines 106 to 129 and
139 to 156), generic in the per-fragment step: run a round; a raised
exception aborts; otherwise re-invoke the backend exactly when some
fragment of the round carried tool calls. -/
def chatLoop (step : List Message → ChatMessagePiece → StepResult)
    (tools : List ToolSchema) (conn : Connector) :
    Nat → Nat → List Message → LoopResult
  | 0, _, log => ⟨log, [], .fuelOut⟩
  | fuel + 1, round, log =>
    let r := runRound step tools conn round log
    match r.error with
    | some e => ⟨r.log, r.events, .errored e⟩
    | none =>
      if r.hadTool then
        let r2 := chatLoop step tools conn fuel (round + 1) r.log
        ⟨r2.log, r.events ++ r2.events, r2.outcome⟩
      else ⟨r.log, r.events, .finished⟩

/-- The streaming loop of `Chatbot.get_stream_response`
(chatbot.py lines 106 to 129). -/
def streamLoop (callables : Callables) (tdm : Tdm) (model : String)
    (tools : List ToolSchema) (conn : Connector) :
    Nat → Nat → List Message → LoopResult :=
  chatLoop (processPieceStream callables tdm model) tools conn

/-- The batch loop of `Chatbot.get_json_response`
(chatbot.py lines 139 to 156). -/
def jsonLoop (callables : Callables) (tdm : Tdm) (model : String)
    (tools : List ToolSchema) (conn : Connector) :
    Nat → Nat → List Message → LoopResult :=
  chatLoop (processPieceJson callables tdm model) tools conn

/-! ## chatbot.py: entry points and log maintenance -/

/-- `Chatbot._prepare_for_response` (chatbot.py lines 94 to 99): ensure
the first entry is the current system prompt (append when the log is
empty, edit index 0 in place otherwise), then append the user message. -/
def _prepare_for_response (log : List Message) (prompt system_prompt : String) :
    List Message :=
  let log1 := if log.isEmpty
    then Messages.append log .system (some system_prompt) [] none
    else Messages.edit log 0 system_prompt
  Messages.append log1 .user (some prompt) [] none

/-- The inner loop of `Chatbot.delete_last_interaction` (chatbot.py lines
88 to 92): keep popping while the last message is not displayed, breaking
on a system message; note the source reads `self.messages[-1]` right
after each pop, before any emptiness check, so popping the last remaining
message makes that read fail (`none`). -/
def dliLoop (log : List Message) (last : Message) : Option (List Message) :=
  if last.displayed then some log
  else if last.role = Role.system ∨ log.isEmpty = true then some log
  else
    let log2 := log.dropLast
    match log2.getLast? with
    | none => none
    | some m => dliLoop log2 m
termination_by log.length
decreasing_by
  simp only [List.length_dropLast]
  rename_i _hdisp hsys
  have hne : log.isEmpty = false := by
    cases h : log.isEmpty with
    | true => exact absurd (Or.inr h) hsys
    | false => rfl
  have : 0 < log.length := by
    cases log with
    | nil => simp at hne
    | cons a l => simp
  omega

/-- `Chatbot.delete_last_interaction` (chatbot.py lines 84 to 92): silent
no-op on an empty log; otherwise pop the last message, read the new last
message (which fails if the log just became empty), and run the popping
loop.  `none` models a raised exception. -/
def delete_last_interaction (log : List Message) : Option (List Message) :=
  if log.isEmpty then some log
  else
    let log1 := log.dropLast
    match log1.getLast? with
    | none => none
    | some m => dliLoop log1 m

/-- The piece yielded by the streaming entry point's exception handler
(chatbot.py line 133). -/
def errorPiece (e : PyError) : ChatMessagePiece :=
  ⟨some ("❌ _**" ++ e.cls ++ ":** " ++ e.msg ++ "_"), [], none, none⟩

/-- What the caller of the streaming entry point observes at the end of
the turn: normal completion, an exception caught and logged with one
error fragment emitted (`caught` carries the logged error), an exception
raised before the `try` block (model routing, line 102), or fuel ran
out. -/
inductive StreamOutcome where
  | ok
  | caught (e : PyError)
  | raised (e : PyError)
  | fuelOut
deriving DecidableEq, Repr

/-- Result of a whole streaming turn. -/
structure StreamResult where
  log : List Message
  events : List Event
  outcome : StreamOutcome
deriving DecidableEq, Repr

/-- The per-round connector selection `self.clients[framework]`
(chatbot.py lines 109 and 142): a missing client raises `KeyError` at the
point of the backend call. -/
def connOf (clients : String → Option Connector) (fw : String) : Connector :=
  fun round log tools =>
    match clients fw with
    | none => ([], some ⟨"KeyError", fw⟩)
    | some c => c round log tools

/-- `Chatbot.get_stream_response` (chatbot.py lines 101 to 133).  The
model-to-framework resolution (`get_model_framework`, a module absent
from the sources at hand, modelled as the `router` parameter per spec
section 4.4) runs before the `try` block, so its failure propagates; the
loop runs inside `try`, and a raised exception is logged and reported as
exactly one final error fragment, keeping the log as it was. -/
def get_stream_response (fuel : Nat) (router : String → Except PyError String)
    (clients : String → Option Connector) (callables : Callables) (tdm : Tdm)
    (tools : List ToolSchema) (model : String) (prompt system_prompt : String)
    (log : List Message) : StreamResult :=
  match router model with
  | .error e => ⟨log, [], .raised e⟩
  | .ok fw =>
    let log1 := _prepare_for_response log prompt system_prompt
    let r := streamLoop callables tdm model tools (connOf clients fw) fuel 0 log1
    match r.outcome with
    | .finished => ⟨r.log, r.events, .ok⟩
    | .errored e => ⟨r.log, r.events ++ [.yieldPiece (errorPiece e)], .caught e⟩
    | .fuelOut => ⟨r.log, r.events, .fuelOut⟩

/-- `Chatbot.get_json_response` (chatbot.py lines 135 to 156): same
preparation and loop shape, but no `try` anywhere — every raised
exception propagates to the caller unmodified, and no error fragment is
emitted. -/
def get_json_response (fuel : Nat) (router : String → Except PyError String)
    (clients : String → Option Connector) (callables : Callables) (tdm : Tdm)
    (tools : List ToolSchema) (model : String) (prompt system_prompt : String)
    (log : List Message) : LoopResult :=
  match router model with
  | .error e => ⟨log, [], .errored e⟩
  | .ok fw =>
    let log1 := _prepare_for_response log prompt system_prompt
    jsonLoop callables tdm model tools (connOf clients fw) fuel 0 log1

/-! ## Helper notions for the theorems -/

/-- Whether a fallible computation returned normally. -/
def isOkE (r : Except PyError String) : Bool :=
  match r with
  | .ok _ => true
  | .error _ => false

/-- The value of a fallible computation that returned normally. -/
def okString (r : Except PyError String) : Option String :=
  match r with
  | .ok s => some s
  | .error _ => none

/-- The `tool`-role message the orchestrator appends for a successfully
executed call: raw result as content, tagged with the originating call. -/
def toolMsgOf (callables : Callables) (tc : ToolCall) : Message :=
  mkMessage .tool (okString (toolOutputE callables tc)) [tc] none

/-- The event pattern one successfully executed tool call produces: the
info fragment yielded to the caller, the invocation of the registered
callable on the call's arguments, and the append of exactly one
`tool`-role message. -/
def toolPattern (callables : Callables) (tdm : Tdm) (tc : ToolCall) : List Event :=
  [Event.yieldPiece (infoPiece tdm tc),
   Event.invokeTool tc.function tc.arguments,
   Event.appendTool (toolMsgOf callables tc)]

/-- The events one fragment produces when its tool calls all succeed. -/
def pieceEvents (callables : Callables) (tdm : Tdm) (model : String)
    (p : ChatMessagePiece) : List Event :=
  if p.tool_calls.isEmpty then [Event.yieldPiece (stamp model p)]
  else p.tool_calls.flatMap (toolPattern callables tdm)

/-- The content accumulated by merging a round's deltas, in order, into
an initial content value (the `update` concatenation rule folded over the
fragments). -/
def foldContent (pieces : List ChatMessagePiece) (init : Option String) : Option String :=
  pieces.foldl (fun acc p => Messages.mergeContent acc p.content) init

/-- The single assistant message a round of plain deltas leaves behind
when no assistant entry was open: appended on the first delta (which also
fixes its displayed flag), then updated by the remaining deltas. -/
def mergedAssistant (model : String) (p1 : ChatMessagePiece)
    (pieces : List ChatMessagePiece) : Message :=
  { mkMessage .assistant p1.content [] (some model) with content := foldContent pieces none }

/-- All tool calls of a fragment list are registered and return
normally. -/
abbrev AllOk (callables : Callables) (pieces : List ChatMessagePiece) : Prop :=
  ∀ p ∈ pieces, ∀ tc ∈ p.tool_calls, isOkE (toolOutputE callables tc) = true

/-- A fragment step behaves well on non-empty logs whose tool calls all
succeed: no raised exception, events as in `pieceEvents`, `hadTool`
exactly when the fragment carried tool calls, log still non-empty. -/
def StepOk (callables : Callables) (tdm : Tdm) (model : String)
    (step : List Message → ChatMessagePiece → StepResult) : Prop :=
  ∀ (log : List Message) (p : ChatMessagePiece), log ≠ [] →
    (∀ tc ∈ p.tool_calls, isOkE (toolOutputE callables tc) = true) →
    (step log p).error = none
    ∧ (step log p).events = pieceEvents callables tdm model p
    ∧ (step log p).hadTool = !p.tool_calls.isEmpty
    ∧ (step log p).log ≠ []

/-- After a fragment without tool calls is processed, the last log entry
is an assistant message. -/
def StepPlainAssistant (step : List Message → ChatMessagePiece → StepResult) : Prop :=
  ∀ (log : List Message) (p : ChatMessagePiece), log ≠ [] → p.tool_calls = [] →
    ((step log p).log.getLast?).map Message.role = some Role.assistant

/-- A fragment step never emits a backend-call event (those come only
from the loop itself). -/
def StepNoBackend (step : List Message → ChatMessagePiece → StepResult) : Prop :=
  ∀ (log : List Message) (p : ChatMessagePiece),
    ∀ e ∈ (step log p).events, e.isBackendCall = false

/-- Backend call k of the connector raises nothing and all tool calls it
requests are registered and succeed. -/
abbrev RoundClean (callables : Callables) (conn : Connector) (tools : List ToolSchema)
    (k : Nat) : Prop :=
  ∀ log, (conn k log tools).2 = none ∧ AllOk callables (conn k log tools).1

/-- Backend call k returns some fragment carrying tool requests. -/
abbrev RoundHasTools (conn : Connector) (tools : List ToolSchema) (k : Nat) : Prop :=
  ∀ log, (conn k log tools).1.any (fun p => !p.tool_calls.isEmpty) = true

/-- Backend call k returns at least one fragment and only plain content
fragments. -/
abbrev RoundPlain (conn : Connector) (tools : List ToolSchema) (k : Nat) : Prop :=
  ∀ log, (conn k log tools).1 ≠ []
    ∧ (conn k log tools).1.any (fun p => !p.tool_calls.isEmpty) = false

/-- Number of backend calls recorded in a trace. -/
def countB (evs : List Event) : Nat := evs.countP Event.isBackendCall

/-- Number of messages of a given role in the log. -/
def countRole (r : Role) (log : List Message) : Nat :=
  log.countP (fun m => decide (m.role = r))

/-- A fragment step keeps the log's first entry, keeps the log at least
two messages long, and appends no `system`-role message. -/
def StepSysPres (step : List Message → ChatMessagePiece → StepResult) : Prop :=
  ∀ (log : List Message) (p : ChatMessagePiece), 2 ≤ log.length →
    (step log p).log.head? = log.head?
    ∧ 2 ≤ (step log p).log.length
    ∧ countRole Role.system (step log p).log = countRole Role.system log

/-! ## Concrete fixtures (used by the witness theorems) -/

/-- A concrete tool call. -/
def toolCallFix : ToolCall := ⟨"call1", "echo", [("text", "hi")]⟩

/-- A registry holding one tool, `echo`, which always succeeds. -/
def cbFix : Callables :=
  fun n => if n = "echo" then some (fun _ => .ok "echoed") else none

/-- A display renderer for info messages. -/
def tdmFix : Tdm := fun n _ => "Running " ++ n

/-- The schema list built from the real registry. -/
def toolsFix : List ToolSchema := _build_tools tools_params_definitions

/-- A prepared two-message log: system prompt then user prompt. -/
def logFix : List Message :=
  [mkMessage .system (some "sys") [] none, mkMessage .user (some "hello") [] none]

/-- A fragment requesting one tool call. -/
def toolPieceFix : ChatMessagePiece := ⟨none, [toolCallFix], none, none⟩

/-- A plain content fragment. -/
def contentPieceFix : ChatMessagePiece := ⟨some "4", [], none, none⟩

/-- A connector that requests a tool on call 0 and answers plainly on
every later call. -/
def connFix1 : Connector :=
  fun round _ _ =>
    if round = 0 then ([toolPieceFix], none) else ([contentPieceFix], none)

/-- A connector that yields one plain fragment and then raises. -/
def connFail : Connector :=
  fun _ _ _ => ([contentPieceFix], some ⟨"BackendError", "boom"⟩)

/-- An assistant message with content `a`, as left by an earlier
fragment of the same round. -/
def asstAFix : Message := mkMessage .assistant (some "a") [] none

/-- A log ending in an in-progress assistant message. -/
def logAFix : List Message :=
  [mkMessage .system (some "sys") [] none, asstAFix]

/-- Two successive plain content deltas. -/
def piecesBC : List ChatMessagePiece :=
  [⟨some "b", [], none, none⟩, ⟨some "c", [], none, none⟩]

/-- A router knowing exactly the model `gpt` on framework `openai`. -/
def routerFix : String → Except PyError String :=
  fun m => if m = "gpt" then .ok "openai" else .error ⟨"UnknownModelError", m⟩

/-- A client table holding a given connector under framework `openai`. -/
def clientsOf (c : Connector) : String → Option Connector :=
  fun fw => if fw = "openai" then some c else none

/-! ## Shared lemmas -/

theorem processToolCalls_ok (callables : Callables) (tdm : Tdm)
    (log : List Message) (tcs : List ToolCall)
    (h : ∀ tc ∈ tcs, isOkE (toolOutputE callables tc) = true) :
    processToolCalls callables tdm log tcs
      = (log ++ tcs.map (toolMsgOf callables),
         tcs.flatMap (toolPattern callables tdm), none) := by
  induction tcs generalizing log with
  | nil => simp [processToolCalls]
  | cons tc rest ih =>
    have htc := h tc (List.mem_cons_self tc rest)
    cases hc : callables tc.function with
    | none =>
      exfalso
      simp [toolOutputE, hc, isOkE] at htc
    | some f =>
      cases hf : f tc.arguments with
      | error e =>
        exfalso
        simp [toolOutputE, hc, hf, isOkE] at htc
      | ok out =>
        have hmsg : toolResultMessage out tc = toolMsgOf callables tc := by
          simp [toolResultMessage, toolMsgOf, toolOutputE, hc, hf, okString]
        simp only [processToolCalls, hc, hf,
          ih _ (fun x hx => h x (List.mem_cons_of_mem tc hx))]
        simp [hmsg, List.flatMap_cons, toolPattern]

theorem processToolCalls_no_backend (callables : Callables) (tdm : Tdm)
    (log : List Message) (tcs : List ToolCall) :
    ∀ e ∈ (processToolCalls callables tdm log tcs).2.1, e.isBackendCall = false := by
  induction tcs generalizing log with
  | nil => simp [processToolCalls]
  | cons tc rest ih =>
    cases hc : callables tc.function with
    | none =>
      simp [processToolCalls, hc, Event.isBackendCall]
    | some f =>
      cases hf : f tc.arguments with
      | error e =>
        simp [processToolCalls, hc, hf, Event.isBackendCall]
      | ok out =>
        simp only [processToolCalls, hc, hf]
        intro e he
        simp only [List.mem_cons] at he
        rcases he with rfl | rfl | rfl | he
        · rfl
        · rfl
        · rfl
        · exact ih _ e he

theorem stepOk_stream (callables : Callables) (tdm : Tdm) (model : String) :
    StepOk callables tdm model (processPieceStream callables tdm model) := by
  intro log p hlog hok
  obtain ⟨lastm, hgl⟩ : ∃ m, log.getLast? = some m := by
    cases hx : log.getLast? with
    | none => exact absurd (List.getLast?_eq_none_iff.mp hx) hlog
    | some m => exact ⟨m, rfl⟩
  by_cases hp : p.tool_calls.isEmpty
  · simp only [processPieceStream, hp, if_true, hgl, pieceEvents]
    refine ⟨by trivial, by trivial, by trivial, ?_⟩
    by_cases ha : lastm.role = Role.assistant
    · simp only [if_pos ha, Messages.updateContent, hgl]
      simp
    · simp only [if_neg ha, Messages.append]
      simp
  · have hp2 : p.tool_calls.isEmpty = false := by
      cases hx : p.tool_calls.isEmpty with
      | true => exact absurd hx hp
      | false => rfl
    have hlog1 : (if lastm.role = Role.assistant
        then Messages.updateToolCalls log p.tool_calls
        else Messages.append log .assistant none p.tool_calls (some model)) ≠ [] := by
      by_cases ha : lastm.role = Role.assistant
      · simp only [if_pos ha, Messages.updateToolCalls, hgl]
        simp
      · simp only [if_neg ha, Messages.append]
        simp
    simp only [processPieceStream, hp2, Bool.false_eq_true, if_false, hgl,
      processToolCalls_ok callables tdm _ p.tool_calls hok, pieceEvents]
    refine ⟨by trivial, by trivial, by trivial, ?_⟩
    intro hcontra
    exact hlog1 (List.append_eq_nil.mp hcontra).1

theorem stepOk_json (callables : Callables) (tdm : Tdm) (model : String) :
    StepOk callables tdm model (processPieceJson callables tdm model) := by
  intro log p hlog hok
  by_cases hp : p.tool_calls.isEmpty
  · simp only [processPieceJson, hp, if_true, pieceEvents]
    refine ⟨by trivial, by trivial, by trivial, ?_⟩
    simp [Messages.append]
  · have hp2 : p.tool_calls.isEmpty = false := by
      cases hx : p.tool_calls.isEmpty with
      | true => exact absurd hx hp
      | false => rfl
    simp only [processPieceJson, hp2, Bool.false_eq_true, if_false,
      processToolCalls_ok callables tdm _ p.tool_calls hok, pieceEvents]
    refine ⟨by trivial, by trivial, by trivial, ?_⟩
    intro hcontra
    have := (List.append_eq_nil.mp hcontra).1
    simp [Messages.append] at this

theorem pieceEvents_no_backend (callables : Callables) (tdm : Tdm) (model : String)
    (p : ChatMessagePiece) :
    ∀ e ∈ pieceEvents callables tdm model p, e.isBackendCall = false := by
  by_cases hp : p.tool_calls.isEmpty
  · simp [pieceEvents, hp, Event.isBackendCall]
  · have hp2 : p.tool_calls.isEmpty = false := by
      cases hx : p.tool_calls.isEmpty with
      | true => exact absurd hx hp
      | false => rfl
    simp only [pieceEvents, hp2, Bool.false_eq_true, if_false]
    intro e he
    obtain ⟨tc, _, htc⟩ := List.mem_flatMap.mp he
    simp only [toolPattern, List.mem_cons] at htc
    rcases htc with rfl | rfl | rfl | h
    · rfl
    · rfl
    · rfl
    · simp at h

theorem stepNoBackend_stream (callables : Callables) (tdm : Tdm) (model : String) :
    StepNoBackend (processPieceStream callables tdm model) := by
  intro log p e he
  by_cases hp : p.tool_calls.isEmpty
  · cases hgl : log.getLast? with
    | none => simp [processPieceStream, hp, hgl] at he
    | some m =>
      simp only [processPieceStream, hp, if_true, hgl, List.mem_singleton] at he
      subst he
      rfl
  · have hp2 : p.tool_calls.isEmpty = false := by
      cases hx : p.tool_calls.isEmpty with
      | true => exact absurd hx hp
      | false => rfl
    cases hgl : log.getLast? with
    | none => simp [processPieceStream, hp2, hgl] at he
    | some m =>
      simp only [processPieceStream, hp2, Bool.false_eq_true, if_false, hgl] at he
      exact processToolCalls_no_backend callables tdm _ _ e he

theorem stepNoBackend_json (callables : Callables) (tdm : Tdm) (model : String) :
    StepNoBackend (processPieceJson callables tdm model) := by
  intro log p e he
  by_cases hp : p.tool_calls.isEmpty
  · simp only [processPieceJson, hp, if_true, List.mem_singleton] at he
    subst he
    rfl
  · have hp2 : p.tool_calls.isEmpty = false := by
      cases hx : p.tool_calls.isEmpty with
      | true => exact absurd hx hp
      | false => rfl
    simp only [processPieceJson, hp2, Bool.false_eq_true, if_false] at he
    exact processToolCalls_no_backend callables tdm _ _ e he

theorem stepPlainAssistant_stream (callables : Callables) (tdm : Tdm) (model : String) :
    StepPlainAssistant (processPieceStream callables tdm model) := by
  intro log p hlog hplain
  obtain ⟨lastm, hgl⟩ : ∃ m, log.getLast? = some m := by
    cases hx : log.getLast? with
    | none => exact absurd (List.getLast?_eq_none_iff.mp hx) hlog
    | some m => exact ⟨m, rfl⟩
  have hp : p.tool_calls.isEmpty = true := by simp [hplain]
  simp only [processPieceStream, hp, if_true, hgl]
  by_cases ha : lastm.role = Role.assistant
  · simp only [if_pos ha, Messages.updateContent, hgl, List.getLast?_concat,
      Option.map_some]
    simp [ha]
  · simp only [if_neg ha, Messages.append, List.getLast?_concat, Option.map_some]
    rfl

theorem stepPlainAssistant_json (callables : Callables) (tdm : Tdm) (model : String) :
    StepPlainAssistant (processPieceJson callables tdm model) := by
  intro log p hlog hplain
  have hp : p.tool_calls.isEmpty = true := by simp [hplain]
  simp only [processPieceJson, hp, if_true, Messages.append, List.getLast?_concat,
    Option.map_some]
  rfl

theorem processPieces_ok (callables : Callables) (tdm : Tdm) (model : String)
    (step : List Message → ChatMessagePiece → StepResult)
    (hstep : StepOk callables tdm model step)
    (log : List Message) (pieces : List ChatMessagePiece)
    (hlog : log ≠ []) (hok : AllOk callables pieces) :
    (processPieces step log pieces).error = none
    ∧ (processPieces step log pieces).events
        = pieces.flatMap (pieceEvents callables tdm model)
    ∧ (processPieces step log pieces).hadTool
        = pieces.any (fun p => !p.tool_calls.isEmpty)
    ∧ (processPieces step log pieces).log ≠ [] := by
  induction pieces generalizing log with
  | nil => simpa [processPieces] using hlog
  | cons p rest ih =>
    obtain ⟨he, hev, ht, hne⟩ :=
      hstep log p hlog (hok p (List.mem_cons_self p rest))
    have hrest : AllOk callables rest :=
      fun x hx => hok x (List.mem_cons_of_mem p hx)
    obtain ⟨ihe, ihev, ihht, ihne⟩ := ih (step log p).log hne hrest
    simp only [processPieces, he]
    exact ⟨ihe, by rw [hev, ihev, List.flatMap_cons],
      by rw [ht, ihht, List.any_cons], ihne⟩

theorem processPieces_no_backend
    (step : List Message → ChatMessagePiece → StepResult)
    (hnb : StepNoBackend step) (log : List Message)
    (pieces : List ChatMessagePiece) :
    ∀ e ∈ (processPieces step log pieces).events, e.isBackendCall = false := by
  induction pieces generalizing log with
  | nil => simp [processPieces]
  | cons p rest ih =>
    intro e he
    simp only [processPieces] at he
    cases herr : (step log p).error with
    | some e2 =>
      simp only [herr] at he
      exact hnb log p e he
    | none =>
      simp only [herr, List.mem_append] at he
      rcases he with he | he
      · exact hnb log p e he
      · exact ih _ e he

theorem processPieces_plain_last
    (step : List Message → ChatMessagePiece → StepResult)
    (callables : Callables) (tdm : Tdm) (model : String)
    (hstep : StepOk callables tdm model step) (hpa : StepPlainAssistant step)
    (log : List Message) (pieces : List ChatMessagePiece)
    (hlog : log ≠ []) (hne : pieces ≠ [])
    (hplain : ∀ p ∈ pieces, p.tool_calls = []) :
    ((processPieces step log pieces).log.getLast?).map Message.role
      = some Role.assistant := by
  induction pieces generalizing log with
  | nil => exact absurd rfl hne
  | cons p rest ih =>
    have hpl := hplain p (List.mem_cons_self p rest)
    obtain ⟨he, _, _, hlogne⟩ := hstep log p hlog (by simp [hpl])
    cases rest with
    | nil =>
      simp only [processPieces, he]
      exact hpa log p hlog hpl
    | cons q rest2 =>
      have := ih (step log p).log hlogne (by simp)
        (fun x hx => hplain x (List.mem_cons_of_mem p hx))
      simp only [processPieces, he]
      simpa [processPieces] using this

theorem runRound_ok (step : List Message → ChatMessagePiece → StepResult)
    (callables : Callables) (tdm : Tdm) (model : String)
    (hstep : StepOk callables tdm model step)
    (tools : List ToolSchema) (conn : Connector) (round : Nat)
    (log : List Message) (hlog : log ≠ [])
    (hclean : RoundClean callables conn tools round) :
    (runRound step tools conn round log).error = none
    ∧ (runRound step tools conn round log).events
        = Event.backendCall round tools
          :: ((conn round log tools).1.flatMap (pieceEvents callables tdm model))
    ∧ (runRound step tools conn round log).hadTool
        = (conn round log tools).1.any (fun p => !p.tool_calls.isEmpty)
    ∧ (runRound step tools conn round log).log ≠ []
    ∧ (runRound step tools conn round log).log
        = (processPieces step log (conn round log tools).1).log := by
  obtain ⟨hcerr, hcok⟩ := hclean log
  obtain ⟨he, hev, ht, hne⟩ :=
    processPieces_ok callables tdm model step hstep log (conn round log tools).1
      hlog hcok
  rcases hconn : conn round log tools with ⟨pieces, cErr⟩
  rw [hconn] at hcerr
  simp only at hcerr
  subst hcerr
  rw [hconn] at he hev ht hne
  simp only [runRound, hconn, he, hev, ht]
  exact ⟨by trivial, by trivial, by trivial, hne, by trivial⟩

theorem runRound_countB (step : List Message → ChatMessagePiece → StepResult)
    (tools : List ToolSchema) (conn : Connector) (round : Nat)
    (log : List Message) :
    1 ≤ countB (runRound step tools conn round log).events := by
  rcases hc : conn round log tools with ⟨pieces, cErr⟩
  have hb : Event.isBackendCall (Event.backendCall round tools) = true := rfl
  simp only [runRound, hc, countB, List.countP_cons, hb, if_true]
  omega

theorem chatLoop_countB_pos (step : List Message → ChatMessagePiece → StepResult)
    (tools : List ToolSchema) (conn : Connector) (fuel round : Nat)
    (log : List Message) :
    1 ≤ countB (chatLoop step tools conn (fuel + 1) round log).events := by
  simp only [chatLoop]
  cases herr : (runRound step tools conn round log).error with
  | some e =>
    simp only [herr]
    exact runRound_countB step tools conn round log
  | none =>
    simp only [herr]
    by_cases ht : (runRound step tools conn round log).hadTool
    · simp only [ht, if_true, countB, List.countP_append]
      have := runRound_countB step tools conn round log
      simp only [countB] at this
      omega
    · simp only [ht, if_false]
      exact runRound_countB step tools conn round log

theorem chatLoop_tools_const (step : List Message → ChatMessagePiece → StepResult)
    (hnb : StepNoBackend step) (tools : List ToolSchema) (conn : Connector)
    (fuel round : Nat) (log : List Message) :
    ∀ e ∈ (chatLoop step tools conn fuel round log).events,
      ∀ (r : Nat) (t : List ToolSchema), e = Event.backendCall r t → t = tools := by
  induction fuel generalizing round log with
  | zero => simp [chatLoop]
  | succ fuel ih =>
    intro e he r t hbt
    have hround : ∀ x ∈ (runRound step tools conn round log).events,
        ∀ (r2 : Nat) (t2 : List ToolSchema),
          x = Event.backendCall r2 t2 → t2 = tools := by
      intro x hx r2 t2 hx2
      rcases hc : conn round log tools with ⟨pieces, cErr⟩
      simp only [runRound, hc, List.mem_cons] at hx
      rcases hx with rfl | hx
      · cases hx2
        rfl
      · have := processPieces_no_backend step hnb log pieces x hx
        rw [hx2] at this
        simp [Event.isBackendCall] at this
    simp only [chatLoop] at he
    cases herr : (runRound step tools conn round log).error with
    | some e2 =>
      simp only [herr] at he
      exact hround e he r t hbt
    | none =>
      simp only [herr] at he
      by_cases ht : (runRound step tools conn round log).hadTool
      · simp only [ht, if_true, List.mem_append] at he
        rcases he with he | he
        · exact hround e he r t hbt
        · exact ih (round + 1) _ e he r t hbt
      · simp only [ht, if_false] at he
        exact hround e he r t hbt

theorem chatLoop_n_rounds (step : List Message → ChatMessagePiece → StepResult)
    (callables : Callables) (tdm : Tdm) (model : String)
    (hstep : StepOk callables tdm model step) (hpa : StepPlainAssistant step)
    (tools : List ToolSchema) (conn : Connector)
    (N : Nat) :
    ∀ (fuel round : Nat) (log : List Message), log ≠ [] →
    (∀ k, k < N → RoundClean callables conn tools (round + k)
      ∧ RoundHasTools conn tools (round + k)) →
    (RoundClean callables conn tools (round + N) ∧ RoundPlain conn tools (round + N)) →
    N < fuel →
    (chatLoop step tools conn fuel round log).outcome = .finished
    ∧ countB (chatLoop step tools conn fuel round log).events = N + 1
    ∧ (((chatLoop step tools conn fuel round log).log.getLast?).map Message.role
        = some Role.assistant) := by
  induction N with
  | zero =>
    intro fuel round log hlog _h1 h2 hfuel
    obtain ⟨fuel, rfl⟩ : ∃ f, fuel = f + 1 := ⟨fuel - 1, by omega⟩
    obtain ⟨hclean, hplain⟩ := h2
    rw [Nat.add_zero] at hclean hplain
    obtain ⟨herr, hev, ht, _hne, hlg⟩ :=
      runRound_ok step callables tdm model hstep tools conn round log hlog hclean
    obtain ⟨hpne, hpany⟩ := hplain log
    have htf : (runRound step tools conn round log).hadTool = false := by
      rw [ht, hpany]
    simp only [chatLoop, herr, htf, Bool.false_eq_true, if_false]
    refine ⟨by trivial, ?_, ?_⟩
    · rw [hev]
      simp only [countB, List.countP_cons, Event.isBackendCall, if_true]
      have : List.countP Event.isBackendCall
          ((conn round log tools).1.flatMap (pieceEvents callables tdm model)) = 0 := by
        rw [List.countP_eq_zero]
        intro e he
        obtain ⟨p, hp, hpe⟩ := List.mem_flatMap.mp he
        simp [pieceEvents_no_backend callables tdm model p e hpe]
      omega
    · rw [hlg]
      refine processPieces_plain_last step callables tdm model hstep hpa log
        (conn round log tools).1 hlog hpne ?_
      intro p hp
      have hfalse := List.any_eq_false.mp hpany p hp
      simp only [Bool.not_eq_true', Bool.not_eq_false] at hfalse
      exact List.isEmpty_iff.mp hfalse
  | succ N ih =>
    intro fuel round log hlog h1 h2 hfuel
    obtain ⟨fuel, rfl⟩ : ∃ f, fuel = f + 1 := ⟨fuel - 1, by omega⟩
    have h0 := h1 0 (Nat.succ_pos N)
    rw [Nat.add_zero] at h0
    obtain ⟨herr, hev, ht, hne, _hlg⟩ :=
      runRound_ok step callables tdm model hstep tools conn round log hlog h0.1
    have htt : (runRound step tools conn round log).hadTool = true := by
      rw [ht]
      exact h0.2 log
    have h1s : ∀ k, k < N → RoundClean callables conn tools (round + 1 + k)
        ∧ RoundHasTools conn tools (round + 1 + k) := by
      intro k hk
      have heq : round + 1 + k = round + (k + 1) := by omega
      rw [heq]
      exact h1 (k + 1) (by omega)
    have h2s : RoundClean callables conn tools (round + 1 + N)
        ∧ RoundPlain conn tools (round + 1 + N) := by
      have heq : round + 1 + N = round + (N + 1) := by omega
      rw [heq]
      exact h2
    obtain ⟨io, ic, il⟩ := ih fuel (round + 1)
      (runRound step tools conn round log).log hne h1s h2s (by omega)
    simp only [chatLoop, herr, htt, if_true]
    refine ⟨io, ?_, il⟩
    have hcr : countB (runRound step tools conn round log).events = 1 := by
      rw [hev]
      simp only [countB, List.countP_cons, Event.isBackendCall, if_true]
      have : List.countP Event.isBackendCall
          ((conn round log tools).1.flatMap (pieceEvents callables tdm model)) = 0 := by
        rw [List.countP_eq_zero]
        intro e he
        obtain ⟨p, hp, hpe⟩ := List.mem_flatMap.mp he
        simp [pieceEvents_no_backend callables tdm model p e hpe]
      omega
    simp only [countB, List.countP_append] at ic ⊢
    simp only [countB] at hcr
    omega

theorem pieces_flat_countB (callables : Callables) (tdm : Tdm) (model : String)
    (pieces : List ChatMessagePiece) :
    List.countP Event.isBackendCall
      (pieces.flatMap (pieceEvents callables tdm model)) = 0 := by
  rw [List.countP_eq_zero]
  intro e he
  obtain ⟨p, _hp, hpe⟩ := List.mem_flatMap.mp he
  simp [pieceEvents_no_backend callables tdm model p e hpe]

/-! ## Claims -/

/-- C1: on both the streaming and the batch entry point, the fragments of
one backend call are processed in arrival order; each tool call of a
fragment produces, in order, one yielded info fragment describing the
pending call, one invocation of the registered callable on the call's
arguments, and the append of exactly one `tool`-role message holding the
raw result and tagged with the originating `ToolCall` — all of it placed
after this round's backend-call event and containing no further
backend-call event, so it completes before the next backend call. -/
theorem tool_dispatch_per_round
    (callables : Callables) (tdm : Tdm) (model : String) (tools : List ToolSchema)
    (conn : Connector) (round : Nat) (log : List Message)
    (pieces : List ChatMessagePiece)
    (hconn : conn round log tools = (pieces, none))
    (hlog : log ≠ []) (hok : AllOk callables pieces) :
    ((runRound (processPieceStream callables tdm model) tools conn round log).events
        = Event.backendCall round tools
          :: pieces.flatMap (pieceEvents callables tdm model)
      ∧ (runRound (processPieceJson callables tdm model) tools conn round log).events
        = Event.backendCall round tools
          :: pieces.flatMap (pieceEvents callables tdm model))
    ∧ (∀ (log1 : List Message) (tcs : List ToolCall),
        (∀ tc ∈ tcs, isOkE (toolOutputE callables tc) = true) →
        processToolCalls callables tdm log1 tcs
          = (log1 ++ tcs.map (toolMsgOf callables),
             tcs.flatMap (toolPattern callables tdm), none))
    ∧ (∀ tc : ToolCall, toolPattern callables tdm tc
        = [Event.yieldPiece (infoPiece tdm tc),
           Event.invokeTool tc.function tc.arguments,
           Event.appendTool
             (mkMessage .tool (okString (toolOutputE callables tc)) [tc] none)])
    ∧ (∀ e ∈ pieces.flatMap (pieceEvents callables tdm model),
        e.isBackendCall = false) := by
  obtain ⟨_, hevS, _, _⟩ :=
    processPieces_ok callables tdm model (processPieceStream callables tdm model)
      (stepOk_stream callables tdm model) log pieces hlog hok
  obtain ⟨_, hevJ, _, _⟩ :=
    processPieces_ok callables tdm model (processPieceJson callables tdm model)
      (stepOk_json callables tdm model) log pieces hlog hok
  refine ⟨⟨?_, ?_⟩, ?_, ?_, ?_⟩
  · simp only [runRound, hconn]
    rw [hevS]
  · simp only [runRound, hconn]
    rw [hevJ]
  · exact fun log1 tcs h => processToolCalls_ok callables tdm log1 tcs h
  · intro tc
    rfl
  · intro e he
    obtain ⟨p, _hp, hpe⟩ := List.mem_flatMap.mp he
    exact pieceEvents_no_backend callables tdm model p e hpe

theorem tool_dispatch_per_round_witness :
    (runRound (processPieceStream cbFix tdmFix "gpt") toolsFix connFix1 0 logFix).events
        = Event.backendCall 0 toolsFix
          :: [toolPieceFix].flatMap (pieceEvents cbFix tdmFix "gpt")
      ∧ (runRound (processPieceJson cbFix tdmFix "gpt") toolsFix connFix1 0 logFix).events
        = Event.backendCall 0 toolsFix
          :: [toolPieceFix].flatMap (pieceEvents cbFix tdmFix "gpt") :=
  (tool_dispatch_per_round cbFix tdmFix "gpt" toolsFix connFix1 0 logFix
    [toolPieceFix] (by decide) (by decide) (by decide)).1

/-- C2: if the connector requests tools on backend calls 0 to N-1 (all
succeeding) and answers with plain non-empty content on call N, both
entry-point loops finish (for every fuel above N), make exactly N+1
backend calls, and end with an assistant message as the last log entry;
moreover, for any clean round, the loop makes a second backend call
exactly when some fragment of the round carried tool requests. -/
theorem bounded_tool_rounds_terminate
    (callables : Callables) (tdm : Tdm) (model : String) (tools : List ToolSchema)
    (conn : Connector) (N fuel : Nat) (log : List Message)
    (hlog : log ≠ [])
    (h1 : ∀ k, k < N → RoundClean callables conn tools k ∧ RoundHasTools conn tools k)
    (h2 : RoundClean callables conn tools N ∧ RoundPlain conn tools N)
    (hfuel : N < fuel) :
    ((streamLoop callables tdm model tools conn fuel 0 log).outcome = .finished
      ∧ countB (streamLoop callables tdm model tools conn fuel 0 log).events = N + 1
      ∧ ((streamLoop callables tdm model tools conn fuel 0 log).log.getLast?).map
          Message.role = some Role.assistant)
    ∧ ((jsonLoop callables tdm model tools conn fuel 0 log).outcome = .finished
      ∧ countB (jsonLoop callables tdm model tools conn fuel 0 log).events = N + 1
      ∧ ((jsonLoop callables tdm model tools conn fuel 0 log).log.getLast?).map
          Message.role = some Role.assistant)
    ∧ (∀ (round2 fuel2 : Nat) (log2 : List Message), log2 ≠ [] →
        RoundClean callables conn tools round2 →
        (2 ≤ countB ((streamLoop callables tdm model tools conn (fuel2 + 2)
            round2 log2).events)
          ↔ (conn round2 log2 tools).1.any (fun p => !p.tool_calls.isEmpty) = true)) := by
  have h1z : ∀ k, k < N → RoundClean callables conn tools (0 + k)
      ∧ RoundHasTools conn tools (0 + k) := by
    intro k hk
    simpa [Nat.zero_add] using h1 k hk
  have h2z : RoundClean callables conn tools (0 + N) ∧ RoundPlain conn tools (0 + N) := by
    simpa [Nat.zero_add] using h2
  refine ⟨?_, ?_, ?_⟩
  · simpa [streamLoop] using
      chatLoop_n_rounds (processPieceStream callables tdm model) callables tdm model
        (stepOk_stream callables tdm model) (stepPlainAssistant_stream callables tdm model)
        tools conn N fuel 0 log hlog h1z h2z hfuel
  · simpa [jsonLoop] using
      chatLoop_n_rounds (processPieceJson callables tdm model) callables tdm model
        (stepOk_json callables tdm model) (stepPlainAssistant_json callables tdm model)
        tools conn N fuel 0 log hlog h1z h2z hfuel
  · intro round2 fuel2 log2 hlog2 hclean
    obtain ⟨herr, hev, ht, _hne, _hlg⟩ :=
      runRound_ok (processPieceStream callables tdm model) callables tdm model
        (stepOk_stream callables tdm model) tools conn round2 log2 hlog2 hclean
    have hb1 : countB (runRound (processPieceStream callables tdm model) tools conn
        round2 log2).events = 1 := by
      rw [hev]
      simp [countB, List.countP_cons, Event.isBackendCall, pieces_flat_countB]
    cases hany : (conn round2 log2 tools).1.any (fun p => !p.tool_calls.isEmpty) with
    | true =>
      have htt : (runRound (processPieceStream callables tdm model) tools conn
          round2 log2).hadTool = true := by rw [ht, hany]
      have hloop : (streamLoop callables tdm model tools conn (fuel2 + 2)
            round2 log2).events
          = (runRound (processPieceStream callables tdm model) tools conn
              round2 log2).events
            ++ (chatLoop (processPieceStream callables tdm model) tools conn
                (fuel2 + 1) (round2 + 1)
                (runRound (processPieceStream callables tdm model) tools conn
                  round2 log2).log).events := by
        simp only [streamLoop, chatLoop, herr, htt, if_true]
      constructor
      · intro _
        rfl
      · intro _
        rw [hloop]
        simp only [countB, List.countP_append]
        have hrec := chatLoop_countB_pos (processPieceStream callables tdm model)
          tools conn fuel2 (round2 + 1)
          (runRound (processPieceStream callables tdm model) tools conn round2 log2).log
        simp only [countB] at hrec hb1
        omega
    | false =>
      have htf : (runRound (processPieceStream callables tdm model) tools conn
          round2 log2).hadTool = false := by rw [ht, hany]
      have hloop : (streamLoop callables tdm model tools conn (fuel2 + 2)
            round2 log2).events
          = (runRound (processPieceStream callables tdm model) tools conn
              round2 log2).events := by
        simp only [streamLoop, chatLoop, herr, htf, Bool.false_eq_true, if_false]
      constructor
      · intro hcontra
        rw [hloop, hb1] at hcontra
        omega
      · intro hcontra
        exact absurd hcontra (by simp)

theorem bounded_tool_rounds_terminate_witness :
    (streamLoop cbFix tdmFix "gpt" toolsFix connFix1 3 0 logFix).outcome
        = LoopOutcome.finished
      ∧ countB (streamLoop cbFix tdmFix "gpt" toolsFix connFix1 3 0 logFix).events
        = 1 + 1
      ∧ (jsonLoop cbFix tdmFix "gpt" toolsFix connFix1 3 0 logFix).outcome
        = LoopOutcome.finished := by
  have h := bounded_tool_rounds_terminate cbFix tdmFix "gpt" toolsFix connFix1 1 3
    logFix (by decide)
    (by
      intro k hk
      have hk0 : k = 0 := by omega
      subst hk0
      exact ⟨fun log => ⟨rfl, show AllOk cbFix [toolPieceFix] by decide⟩,
        fun log => show ([toolPieceFix].any fun p => !p.tool_calls.isEmpty) = true
          by decide⟩)
    ⟨fun log => ⟨rfl, show AllOk cbFix [contentPieceFix] by decide⟩,
      fun log => ⟨show ([contentPieceFix] : List ChatMessagePiece) ≠ [] by decide,
        show ([contentPieceFix].any fun p => !p.tool_calls.isEmpty) = false by decide⟩⟩
    (by omega)
  exact ⟨h.1.1, h.1.2.1, h.2.1.1⟩

theorem dropLast_concat_getLast?_self (l : List Message) (m : Message)
    (h : l.getLast? = some m) : l.dropLast ++ [m] = l := by
  induction l with
  | nil => simp at h
  | cons a l ih =>
    cases l with
    | nil =>
      simp only [List.getLast?_singleton, Option.some_inj] at h
      subst h
      simp
    | cons b l2 =>
      rw [List.getLast?_cons_cons] at h
      simp only [List.dropLast_cons₂, List.cons_append]
      rw [ih h]

theorem processPieces_stream_assistant (callables : Callables) (tdm : Tdm)
    (model : String) (log : List Message) (m : Message)
    (hgl : log.getLast? = some m) (ha : m.role = Role.assistant)
    (pieces : List ChatMessagePiece)
    (hplain : ∀ p ∈ pieces, p.tool_calls = []) :
    processPieces (processPieceStream callables tdm model) log pieces
      = ⟨log.dropLast ++ [{ m with content := foldContent pieces m.content }],
         pieces.map (fun p => Event.yieldPiece (stamp model p)), false, none⟩ := by
  induction pieces generalizing log m with
  | nil =>
    simp only [processPieces, foldContent, List.foldl_nil, List.map_nil]
    have hm : ({ m with content := m.content } : Message) = m := rfl
    rw [hm, dropLast_concat_getLast?_self log m hgl]
  | cons p rest ih =>
    have hp : p.tool_calls.isEmpty = true := by
      simp [hplain p (List.mem_cons_self p rest)]
    have hstep : processPieceStream callables tdm model log p
        = ⟨log.dropLast ++ [{ m with content := Messages.mergeContent m.content p.content }],
           [Event.yieldPiece (stamp model p)], false, none⟩ := by
      simp only [processPieceStream, hp, if_true, hgl, if_pos ha,
        Messages.updateContent, hgl]
    have hrest := ih (log.dropLast ++ [{ m with content := Messages.mergeContent m.content p.content }]) { m with content := Messages.mergeContent m.content p.content } (List.getLast?_concat _) ha (fun x hx => hplain x (List.mem_cons_of_mem p hx))
    simp only [processPieces, hstep]
    rw [hrest]
    simp only [List.dropLast_concat]
    rfl

theorem processPieces_json_plain (callables : Callables) (tdm : Tdm)
    (model : String) (log : List Message) (pieces : List ChatMessagePiece)
    (hplain : ∀ p ∈ pieces, p.tool_calls = []) :
    processPieces (processPieceJson callables tdm model) log pieces
      = ⟨log ++ pieces.map (fun p => mkMessage .assistant p.content [] (some model)),
         pieces.map (fun p => Event.yieldPiece (stamp model p)), false, none⟩ := by
  induction pieces generalizing log with
  | nil => simp [processPieces]
  | cons p rest ih =>
    have hp : p.tool_calls.isEmpty = true := by
      simp [hplain p (List.mem_cons_self p rest)]
    have hstep : processPieceJson callables tdm model log p
        = ⟨log ++ [mkMessage .assistant p.content [] (some model)],
           [Event.yieldPiece (stamp model p)], false, none⟩ := by
      simp only [processPieceJson, hp, if_true, Messages.append]
    simp only [processPieces, hstep]
    rw [ih _ (fun x hx => hplain x (List.mem_cons_of_mem p hx))]
    simp [List.append_assoc]

/-- C3 counterexample: on the batch entry point, a pure content fragment
arriving while the last log entry is an assistant message is appended as
a second assistant entry; it is not merged into the last entry via
`update` (which would keep a single entry with content `ab`), refuting
the claim for the batch turn. -/
theorem json_merge_counterexample :
    (processPieceJson cbFix tdmFix "gpt" [asstAFix]
        ⟨some "b", [], none, none⟩).log
      = [asstAFix, mkMessage .assistant (some "b") [] (some "gpt")]
    ∧ (processPieceJson cbFix tdmFix "gpt" [asstAFix]
        ⟨some "b", [], none, none⟩).log
      ≠ Messages.updateContent [asstAFix] (some "b") := by
  constructor
  · decide
  · decide

/-- C3 (amended): on the streaming entry point, every pure content
fragment is merged into the in-progress assistant message — `update`
(concatenating content) when the last log entry is an assistant message,
`append` of a new assistant message otherwise — so one round of deltas
accumulates into a single log entry, and each fragment is stamped with
the model before being forwarded; on the batch entry point, by contrast,
each content fragment is appended as its own assistant entry (also
stamped), with no merging. -/
theorem content_merge_stream_vs_json (callables : Callables) (tdm : Tdm)
    (model : String) (log : List Message) (pieces : List ChatMessagePiece)
    (hplain : ∀ p ∈ pieces, p.tool_calls = []) :
    (∀ m, log.getLast? = some m → m.role = Role.assistant →
      processPieces (processPieceStream callables tdm model) log pieces
        = ⟨log.dropLast ++ [{ m with content := foldContent pieces m.content }],
           pieces.map (fun p => Event.yieldPiece (stamp model p)), false, none⟩)
    ∧ (∀ m p1 rest, log.getLast? = some m → m.role ≠ Role.assistant →
        pieces = p1 :: rest →
        processPieces (processPieceStream callables tdm model) log pieces
          = ⟨log ++ [mergedAssistant model p1 pieces],
             pieces.map (fun p => Event.yieldPiece (stamp model p)), false, none⟩)
    ∧ processPieces (processPieceJson callables tdm model) log pieces
        = ⟨log ++ pieces.map (fun p => mkMessage .assistant p.content [] (some model)),
           pieces.map (fun p => Event.yieldPiece (stamp model p)), false, none⟩ := by
  refine ⟨?_, ?_, processPieces_json_plain callables tdm model log pieces hplain⟩
  · intro m hgl ha
    exact processPieces_stream_assistant callables tdm model log m hgl ha pieces hplain
  · intro m p1 rest hgl ha hps
    subst hps
    have hp : p1.tool_calls.isEmpty = true := by
      simp [hplain p1 (List.mem_cons_self p1 rest)]
    have hstep : processPieceStream callables tdm model log p1
        = ⟨log ++ [mkMessage .assistant p1.content [] (some model)],
           [Event.yieldPiece (stamp model p1)], false, none⟩ := by
      simp only [processPieceStream, hp, if_true, hgl, if_neg ha, Messages.append]
    have hrest := processPieces_stream_assistant callables tdm model (log ++ [mkMessage .assistant p1.content [] (some model)]) (mkMessage .assistant p1.content [] (some model)) (List.getLast?_concat _) rfl rest (fun x hx => hplain x (List.mem_cons_of_mem p1 hx))
    simp only [processPieces, hstep]
    rw [hrest]
    simp only [List.dropLast_concat]
    rfl

theorem content_merge_stream_vs_json_witness :
    processPieces (processPieceStream cbFix tdmFix "gpt") logAFix piecesBC
      = ⟨logAFix.dropLast ++ [{ asstAFix with content := foldContent piecesBC asstAFix.content }],
         piecesBC.map (fun p => Event.yieldPiece (stamp "gpt" p)), false, none⟩ :=
  (content_merge_stream_vs_json cbFix tdmFix "gpt" logAFix piecesBC (by decide)).1
    asstAFix (by decide) (by decide)

/-- C4: on the streaming entry point, whenever the loop is aborted by an
exception `e` raised while iterating the connector's output (or while
dispatching a tool), the turn returns with the error logged (`caught e`),
the yielded sequence extended by exactly one final fragment whose content
is the human-readable error notice, and the message log exactly as it was
at the moment of failure — no rollback. -/
theorem stream_error_single_fragment (fuel : Nat)
    (router : String → Except PyError String) (clients : String → Option Connector)
    (callables : Callables) (tdm : Tdm) (tools : List ToolSchema)
    (model prompt system_prompt : String) (log : List Message) (fw : String)
    (hrouter : router model = .ok fw)
    (l2 : List Message) (evs : List Event) (e : PyError)
    (hloop : streamLoop callables tdm model tools (connOf clients fw) fuel 0
        (_prepare_for_response log prompt system_prompt) = ⟨l2, evs, .errored e⟩) :
    get_stream_response fuel router clients callables tdm tools model prompt
        system_prompt log
      = ⟨l2, evs ++ [Event.yieldPiece (errorPiece e)], .caught e⟩
    ∧ (errorPiece e).content
        = some ("❌ _**" ++ e.cls ++ ":** " ++ e.msg ++ "_")
    ∧ (evs ++ [Event.yieldPiece (errorPiece e)]).getLast?
        = some (Event.yieldPiece (errorPiece e)) := by
  refine ⟨?_, rfl, List.getLast?_concat _⟩
  simp only [get_stream_response, hrouter, hloop]

theorem stream_error_single_fragment_witness :
    get_stream_response 1 routerFix (clientsOf connFail) cbFix tdmFix toolsFix
        "gpt" "hi" "sys" []
      = ⟨[mkMessage .system (some "sys") [] none, mkMessage .user (some "hi") [] none,
          mkMessage .assistant (some "4") [] (some "gpt")],
         [Event.backendCall 0 toolsFix,
          Event.yieldPiece ⟨some "4", [], none, some "gpt"⟩]
           ++ [Event.yieldPiece (errorPiece ⟨"BackendError", "boom"⟩)],
         .caught ⟨"BackendError", "boom"⟩⟩ :=
  (stream_error_single_fragment 1 routerFix (clientsOf connFail) cbFix tdmFix
    toolsFix "gpt" "hi" "sys" [] "openai" rfl
    [mkMessage .system (some "sys") [] none, mkMessage .user (some "hi") [] none,
      mkMessage .assistant (some "4") [] (some "gpt")]
    [Event.backendCall 0 toolsFix, Event.yieldPiece ⟨some "4", [], none, some "gpt"⟩]
    ⟨"BackendError", "boom"⟩ (by decide)).1

/-- C6: the claim is right that deleting the last interaction is a silent
no-op on an empty log; but on a log holding a single message the code
pops it and then reads `messages[-1]` on the now-empty log, which fails —
the emptiness check of the popping loop comes only after that read.  The
last conjunct shows a two-message log (system then displayed user
message) is handled without error, stopping at the system message. -/
theorem delete_last_interaction_singleton_fails :
    delete_last_interaction [] = some []
    ∧ delete_last_interaction [mkMessage .system (some "sys") [] none] = none
    ∧ delete_last_interaction logFix
        = some [mkMessage .system (some "sys") [] none] := by
  refine ⟨rfl, rfl, ?_⟩
  simp [delete_last_interaction, logFix, dliLoop, mkMessage, displayedFor]

/-- C8: the batch entry point wraps nothing: an unknown model propagates
the router's error unmodified with the log untouched and no fragment
emitted; with a resolvable model the entry point returns the loop's
result verbatim, so any exception the loop surfaces (connector failure,
unknown tool name — a KeyError from the callables lookup — or a tool
body's exception) reaches the caller unmodified, with no error fragment
appended. -/
theorem json_errors_propagate (fuel : Nat)
    (router : String → Except PyError String) (clients : String → Option Connector)
    (callables : Callables) (tdm : Tdm) (tools : List ToolSchema)
    (model prompt system_prompt : String) (log : List Message) :
    (∀ e, router model = .error e →
      get_json_response fuel router clients callables tdm tools model prompt
          system_prompt log = ⟨log, [], .errored e⟩)
    ∧ (∀ fw, router model = .ok fw →
        get_json_response fuel router clients callables tdm tools model prompt
            system_prompt log
          = jsonLoop callables tdm model tools (connOf clients fw) fuel 0
              (_prepare_for_response log prompt system_prompt))
    ∧ (∀ (tc : ToolCall) (log1 : List Message), callables tc.function = none →
        (processToolCalls callables tdm log1 [tc]).2.2
          = some ⟨"KeyError", tc.function⟩)
    ∧ (∀ (tc : ToolCall) (log1 : List Message)
        (f : Args → Except PyError String) (e : PyError),
        callables tc.function = some f → f tc.arguments = .error e →
        (processToolCalls callables tdm log1 [tc]).2.2 = some e) := by
  refine ⟨?_, ?_, ?_, ?_⟩
  · intro e he
    simp only [get_json_response, he]
  · intro fw hfw
    simp only [get_json_response, hfw]
  · intro tc log1 hc
    simp [processToolCalls, hc]
  · intro tc log1 f e hc hf
    simp [processToolCalls, hc, hf]

theorem json_errors_propagate_witness :
    get_json_response 1 routerFix (clientsOf connFail) cbFix tdmFix toolsFix
        "bad" "hi" "sys" []
      = ⟨[], [], .errored ⟨"UnknownModelError", "bad"⟩⟩
    ∧ (processToolCalls cbFix tdmFix [] [⟨"c2", "nosuch", []⟩]).2.2
      = some ⟨"KeyError", "nosuch"⟩ :=
  ⟨(json_errors_propagate 1 routerFix (clientsOf connFail) cbFix tdmFix toolsFix
      "bad" "hi" "sys" []).1 ⟨"UnknownModelError", "bad"⟩ rfl,
   (json_errors_propagate 1 routerFix (clientsOf connFail) cbFix tdmFix toolsFix
      "bad" "hi" "sys" []).2.2.1 ⟨"c2", "nosuch", []⟩ [] rfl⟩

/-- C5 counterexample: a failure raised by the web search call itself —
`DDGS().text(...)` at tools.py line 37, which sits before the `try` block
opened at line 39 — propagates out of `web_search` instead of being
caught and turned into a descriptive error string, refuting the claim
that any failure raised inside the tool body is caught inside the tool
itself. -/
theorem web_search_error_propagates :
    web_search (fun _ _ => .error ⟨"RatelimitException", "rate limited"⟩) "q" 5
      = .error ⟨"RatelimitException", "rate limited"⟩ := rfl

/-- C5 (amended): every failure inside `surf` is caught and returned as
an `ERROR:` string (including the non-200 status raise); a failure raised
while iterating over the results inside `web_search` is caught and
returned as an error string; and a tool whose callable returns a string
has that string recorded as the `tool`-role message, with the loop
continuing error-free.  However a failure raised by the search call
itself, made before the `try` block of `web_search`, propagates out of
the tool (see the counterexample). -/
theorem tool_errors_caught_amended (url query : String) (clean : String → String)
    (n : Int) :
    (∀ (e : PyError) (fetch : String → Except PyError (Int × String)),
      fetch url = .error e → surf fetch clean url = "ERROR: " ++ e.msg)
    ∧ (∀ (status : Int) (text : String)
        (fetch : String → Except PyError (Int × String)),
        fetch url = .ok (status, text) → status ≠ 200 →
        surf fetch clean url
          = "ERROR: " ++ ("ERROR: Failed to retrieve the webpage. Status code: "
              ++ toString status))
    ∧ (∀ (ddgsText : String → Int → Except PyError (List SearchResult))
        (results : List SearchResult) (e : PyError),
        ddgsText query (clampMaxResults n) = .ok results →
        collectOutputs results = .error e →
        web_search ddgsText query n
          = .ok ("Error while searching the web: " ++ e.msg))
    ∧ (∀ (callables : Callables) (tdm : Tdm) (tc : ToolCall)
        (f : Args → Except PyError String) (out : String) (log1 : List Message),
        callables tc.function = some f → f tc.arguments = .ok out →
        processToolCalls callables tdm log1 [tc]
          = (log1 ++ [toolResultMessage out tc],
             [Event.yieldPiece (infoPiece tdm tc),
              Event.invokeTool tc.function tc.arguments,
              Event.appendTool (toolResultMessage out tc)], none)) := by
  refine ⟨?_, ?_, ?_, ?_⟩
  · intro e fetch hf
    simp [surf, hf, Bind.bind, Except.bind]
  · intro status text fetch hf hs
    simp [surf, hf, hs, Bind.bind, Except.bind, pure, Except.pure]
  · intro ddgsText results e hd hc
    simp only [web_search, hd, hc]
  · intro callables tdm tc f out log1 hc hf
    simp [processToolCalls, hc, hf]

theorem tool_errors_caught_amended_witness :
    surf (fun _ => .error ⟨"ConnectTimeout", "timed out"⟩) id "http://x"
      = "ERROR: " ++ "timed out"
    ∧ web_search (fun _ _ => .ok [[("q", some "v")]]) "query" 3
      = .ok ("Error while searching the web: " ++ "href") :=
  ⟨(tool_errors_caught_amended "http://x" "query" id 3).1
      ⟨"ConnectTimeout", "timed out"⟩ (fun _ => .error ⟨"ConnectTimeout", "timed out"⟩)
      rfl,
   (tool_errors_caught_amended "http://x" "query" id 3).2.2.1
      (fun _ _ => .ok [[("q", some "v")]]) [[("q", some "v")]] ⟨"KeyError", "href"⟩
      rfl rfl⟩

/-- C10: the effective `max_results` used for the search always lies in
[1, 10] — a request below 1 is clamped to 1, above 10 to 10, and an
in-range request is used as is; `web_search` consults the search function
only at the clamped value; and when the result iteration completes with
no usable output the function returns exactly the string `No results`. -/
theorem web_search_clamp_and_no_results (n : Int) (query : String)
    (f g : String → Int → Except PyError (List SearchResult)) :
    (1 ≤ clampMaxResults n ∧ clampMaxResults n ≤ 10)
    ∧ (n < 1 → clampMaxResults n = 1)
    ∧ (10 < n → clampMaxResults n = 10)
    ∧ (1 ≤ n → n ≤ 10 → clampMaxResults n = n)
    ∧ ((∀ (q : String) (k : Int), 1 ≤ k → k ≤ 10 → f q k = g q k) →
        web_search f query n = web_search g query n)
    ∧ (∀ results, f query (clampMaxResults n) = .ok results →
        collectOutputs results = .ok [] →
        web_search f query n = .ok "No results") := by
  have hclamp : 1 ≤ clampMaxResults n ∧ clampMaxResults n ≤ 10 := by
    simp only [clampMaxResults]
    split
    · omega
    · split
      · omega
      · omega
  refine ⟨hclamp, ?_, ?_, ?_, ?_, ?_⟩
  · intro h
    simp [clampMaxResults, h]
  · intro h
    have h1 : ¬n < 1 := by omega
    simp [clampMaxResults, h1, h]
  · intro h1 h2
    have h3 : ¬n < 1 := by omega
    have h4 : ¬n > 10 := by omega
    simp [clampMaxResults, h3, h4]
  · intro hfg
    have := hfg query (clampMaxResults n) hclamp.1 hclamp.2
    simp only [web_search, this]
  · intro results hres hcoll
    simp [web_search, hres, hcoll]

theorem web_search_clamp_and_no_results_witness :
    clampMaxResults 42 = 10
    ∧ web_search (fun _ _ => .ok []) "q" 42 = .ok "No results" :=
  ⟨(web_search_clamp_and_no_results 42 "q" (fun _ _ => .ok [])
      (fun _ _ => .ok [])).2.2.1 (by omega),
   (web_search_clamp_and_no_results 42 "q" (fun _ _ => .ok [])
      (fun _ _ => .ok [])).2.2.2.2.2 [] rfl rfl⟩

/-- C9: the schema built from the registry holds exactly one descriptor
per registered callable, in registry order; descriptor i is the
`function`-typed object whose name is the callable's name, whose
description is its documentation text, whose parameters object has type
`object` with one named property per declared parameter carrying its
schema fragment, and whose required list holds exactly the parameters
flagged required, in declaration order; and every backend call of either
loop is handed this very descriptor list. -/
theorem build_tools_schema_spec (defs : List (FuncDecl × List ParamSpec))
    (callables : Callables) (tdm : Tdm) (model : String) (conn : Connector)
    (fuel round : Nat) (log : List Message) :
    (_build_tools defs).length = defs.length
    ∧ (∀ i : Fin defs.length,
        (_build_tools defs)[i.val]?
          = some ⟨"function",
              ⟨(defs.get i).1.name, (defs.get i).1.doc, "object",
               (defs.get i).2.map (fun p => (p.name, p.schema)),
               ((defs.get i).2.filter (fun p => p.required)).map (fun p => p.name)⟩⟩)
    ∧ (∀ e ∈ (streamLoop callables tdm model (_build_tools defs) conn fuel round
          log).events,
        ∀ (r : Nat) (t : List ToolSchema), e = Event.backendCall r t →
          t = _build_tools defs)
    ∧ (∀ e ∈ (jsonLoop callables tdm model (_build_tools defs) conn fuel round
          log).events,
        ∀ (r : Nat) (t : List ToolSchema), e = Event.backendCall r t →
          t = _build_tools defs) := by
  refine ⟨by simp [_build_tools], ?_, ?_, ?_⟩
  · intro i
    simp only [_build_tools, List.getElem?_map, List.getElem?_eq_getElem i.isLt,
      Option.map_some]
    rfl
  · exact chatLoop_tools_const (processPieceStream callables tdm model)
      (stepNoBackend_stream callables tdm model) (_build_tools defs) conn fuel
      round log
  · exact chatLoop_tools_const (processPieceJson callables tdm model)
      (stepNoBackend_json callables tdm model) (_build_tools defs) conn fuel
      round log

theorem build_tools_schema_spec_witness :
    (_build_tools tools_params_definitions).length = tools_params_definitions.length
    ∧ (_build_tools tools_params_definitions)[0]?
      = some ⟨"function",
          ⟨(tools_params_definitions.get ⟨0, by decide⟩).1.name,
           (tools_params_definitions.get ⟨0, by decide⟩).1.doc, "object",
           (tools_params_definitions.get ⟨0, by decide⟩).2.map
             (fun p => (p.name, p.schema)),
           ((tools_params_definitions.get ⟨0, by decide⟩).2.filter
             (fun p => p.required)).map (fun p => p.name)⟩⟩ :=
  ⟨(build_tools_schema_spec tools_params_definitions cbFix tdmFix "gpt" connFix1
      1 0 logFix).1,
   (build_tools_schema_spec tools_params_definitions cbFix tdmFix "gpt" connFix1
      1 0 logFix).2.1 ⟨0, by decide⟩⟩

theorem head?_dropLast_of_two (log : List Message) (h : 2 ≤ log.length) :
    log.dropLast.head? = log.head? := by
  cases log with
  | nil => simp at h
  | cons a l =>
    cases l with
    | nil => simp at h
    | cons b l2 => simp [List.dropLast_cons₂]

theorem head?_append_some (l l2 : List Message) (a : Message)
    (h : l.head? = some a) : (l ++ l2).head? = some a := by
  rw [List.head?_append, h]
  rfl

theorem countRole_concat (r : Role) (log : List Message) (m : Message) :
    countRole r (log ++ [m]) = countRole r log + (if m.role = r then 1 else 0) := by
  simp [countRole, List.countP_append, List.countP_cons]

theorem countRole_system_tools (ms : List Message)
    (h : ∀ m ∈ ms, m.role = Role.tool) : countRole Role.system ms = 0 := by
  simp only [countRole, List.countP_eq_zero]
  intro m hm
  simp [h m hm]

theorem countRole_updateContent (r : Role) (log : List Message) (c : Option String) :
    countRole r (Messages.updateContent log c) = countRole r log := by
  cases hgl : log.getLast? with
  | none => simp [Messages.updateContent, hgl]
  | some m =>
    have hlog := dropLast_concat_getLast?_self log m hgl
    simp only [Messages.updateContent, hgl]
    conv_rhs => rw [← hlog]
    simp [countRole, List.countP_append, List.countP_cons]

theorem countRole_updateToolCalls (r : Role) (log : List Message)
    (tcs : List ToolCall) :
    countRole r (Messages.updateToolCalls log tcs) = countRole r log := by
  cases hgl : log.getLast? with
  | none => simp [Messages.updateToolCalls, hgl]
  | some m =>
    have hlog := dropLast_concat_getLast?_self log m hgl
    simp only [Messages.updateToolCalls, hgl]
    conv_rhs => rw [← hlog]
    simp [countRole, List.countP_append, List.countP_cons]

theorem countRole_edit_zero (r : Role) (log : List Message) (c : String) :
    countRole r (Messages.edit log 0 c) = countRole r log := by
  cases log with
  | nil => simp [Messages.edit]
  | cons m rest => simp [Messages.edit, countRole, List.countP_cons]

theorem processToolCalls_log_shape (callables : Callables) (tdm : Tdm)
    (log : List Message) (tcs : List ToolCall) :
    ∃ ms, (processToolCalls callables tdm log tcs).1 = log ++ ms
      ∧ ∀ m ∈ ms, m.role = Role.tool := by
  induction tcs generalizing log with
  | nil => exact ⟨[], by simp [processToolCalls], by simp⟩
  | cons tc rest ih =>
    cases hc : callables tc.function with
    | none => exact ⟨[], by simp [processToolCalls, hc], by simp⟩
    | some f =>
      cases hf : f tc.arguments with
      | error e => exact ⟨[], by simp [processToolCalls, hc, hf], by simp⟩
      | ok out =>
        obtain ⟨ms, hms, hroles⟩ := ih (log ++ [toolResultMessage out tc])
        refine ⟨toolResultMessage out tc :: ms, ?_, ?_⟩
        · simp only [processToolCalls, hc, hf, hms, List.append_assoc,
            List.singleton_append]
        · intro m hm
          rcases List.mem_cons.mp hm with rfl | hm
          · rfl
          · exact hroles m hm

theorem stepSysPres_stream (callables : Callables) (tdm : Tdm) (model : String) :
    StepSysPres (processPieceStream callables tdm model) := by
  intro log p hlen
  have hne : log ≠ [] := by
    intro h
    subst h
    simp at hlen
  obtain ⟨lastm, hgl⟩ : ∃ m, log.getLast? = some m := by
    cases hx : log.getLast? with
    | none => exact absurd (List.getLast?_eq_none_iff.mp hx) hne
    | some m => exact ⟨m, rfl⟩
  obtain ⟨a, ha⟩ : ∃ a, log.head? = some a := by
    cases log with
    | nil => simp at hlen
    | cons x l => exact ⟨x, rfl⟩
  have hupC : ∀ c, Messages.updateContent log c
      = log.dropLast ++ [{ lastm with content := Messages.mergeContent lastm.content c }] := by
    intro c
    simp [Messages.updateContent, hgl]
  have hupT : ∀ tcs, Messages.updateToolCalls log tcs
      = log.dropLast ++ [{ lastm with tool_calls := tcs }] := by
    intro tcs
    simp [Messages.updateToolCalls, hgl]
  have hupHead : ∀ (x : Message), (log.dropLast ++ [x]).head? = some a := by
    intro x
    apply head?_append_some
    rw [head?_dropLast_of_two log hlen, ha]
  have hupLen : ∀ (x : Message), 2 ≤ (log.dropLast ++ [x]).length := by
    intro x
    simp [List.length_dropLast]
    omega
  have hlog1 : ∀ (log1 : List Message), log1.head? = some a → 2 ≤ log1.length →
      countRole Role.system log1 = countRole Role.system log →
      (processToolCalls callables tdm log1 p.tool_calls).1.head? = some a
      ∧ 2 ≤ (processToolCalls callables tdm log1 p.tool_calls).1.length
      ∧ countRole Role.system (processToolCalls callables tdm log1 p.tool_calls).1
        = countRole Role.system log := by
    intro log1 hh hl hc
    obtain ⟨ms, hms, hroles⟩ := processToolCalls_log_shape callables tdm log1 p.tool_calls
    rw [hms]
    refine ⟨head?_append_some _ _ _ hh, ?_, ?_⟩
    · simp only [List.length_append]
      omega
    · simp only [countRole, List.countP_append] at hc ⊢
      have := countRole_system_tools ms hroles
      simp only [countRole] at this
      omega
  by_cases hp : p.tool_calls.isEmpty
  · simp only [processPieceStream, hp, if_true, hgl]
    by_cases hrole : lastm.role = Role.assistant
    · simp only [if_pos hrole, hupC]
      refine ⟨(hupHead _).trans ha.symm, hupLen _, ?_⟩
      rw [← hupC]
      exact countRole_updateContent Role.system log p.content
    · simp only [if_neg hrole, Messages.append]
      refine ⟨(head?_append_some _ _ _ ha).trans ha.symm, ?_, ?_⟩
      · simp only [List.length_append, List.length_singleton]
        omega
      · rw [countRole_concat]
        simp [mkMessage]
  · have hp2 : p.tool_calls.isEmpty = false := by
      cases hx : p.tool_calls.isEmpty with
      | true => exact absurd hx hp
      | false => rfl
    simp only [processPieceStream, hp2, Bool.false_eq_true, if_false, hgl]
    by_cases hrole : lastm.role = Role.assistant
    · simp only [if_pos hrole, hupT]
      have := hlog1 (log.dropLast ++ [{ lastm with tool_calls := p.tool_calls }])
        (hupHead _) (hupLen _)
        (by rw [← hupT]; exact countRole_updateToolCalls Role.system log p.tool_calls)
      exact ⟨this.1.trans ha.symm, this.2.1, this.2.2⟩
    · simp only [if_neg hrole, Messages.append]
      have := hlog1 (log ++ [mkMessage .assistant none p.tool_calls (some model)])
        (head?_append_some _ _ _ ha)
        (by simp only [List.length_append, List.length_singleton]; omega)
        (by rw [countRole_concat]; simp [mkMessage])
      exact ⟨this.1.trans ha.symm, this.2.1, this.2.2⟩

theorem stepSysPres_json (callables : Callables) (tdm : Tdm) (model : String) :
    StepSysPres (processPieceJson callables tdm model) := by
  intro log p hlen
  obtain ⟨a, ha⟩ : ∃ a, log.head? = some a := by
    cases log with
    | nil => simp at hlen
    | cons x l => exact ⟨x, rfl⟩
  by_cases hp : p.tool_calls.isEmpty
  · simp only [processPieceJson, hp, if_true, Messages.append]
    refine ⟨(head?_append_some _ _ _ ha).trans ha.symm, ?_, ?_⟩
    · simp only [List.length_append, List.length_singleton]
      omega
    · rw [countRole_concat]
      simp [mkMessage]
  · have hp2 : p.tool_calls.isEmpty = false := by
      cases hx : p.tool_calls.isEmpty with
      | true => exact absurd hx hp
      | false => rfl
    simp only [processPieceJson, hp2, Bool.false_eq_true, if_false]
    obtain ⟨ms, hms, hroles⟩ := processToolCalls_log_shape callables tdm
      (Messages.append log .assistant none p.tool_calls (some model)) p.tool_calls
    simp only [Messages.append] at hms
    simp only [Messages.append, hms]
    refine ⟨?_, ?_, ?_⟩
    · rw [List.append_assoc]
      exact (head?_append_some _ _ _ ha).trans ha.symm
    · simp only [List.length_append, List.length_singleton]
      omega
    · rw [List.append_assoc, countRole, List.countP_append, ← countRole]
      have h0 : countRole Role.system ([mkMessage .assistant none p.tool_calls
          (some model)] ++ ms) = 0 := by
        rw [countRole, List.countP_append, ← countRole, ← countRole,
          countRole_system_tools ms hroles]
        simp [countRole, List.countP_cons, mkMessage]
      simp only [countRole] at h0 ⊢
      omega

theorem processPieces_sysPres (step : List Message → ChatMessagePiece → StepResult)
    (hstep : StepSysPres step) (log : List Message) (pieces : List ChatMessagePiece)
    (hlen : 2 ≤ log.length) :
    (processPieces step log pieces).log.head? = log.head?
    ∧ 2 ≤ (processPieces step log pieces).log.length
    ∧ countRole Role.system (processPieces step log pieces).log
      = countRole Role.system log := by
  induction pieces generalizing log with
  | nil => exact ⟨rfl, hlen, rfl⟩
  | cons p rest ih =>
    obtain ⟨hh, hl, hc⟩ := hstep log p hlen
    simp only [processPieces]
    cases herr : (step log p).error with
    | some e => exact ⟨hh, hl, hc⟩
    | none =>
      obtain ⟨ih1, ih2, ih3⟩ := ih (step log p).log hl
      exact ⟨ih1.trans hh, ih2, ih3.trans hc⟩

theorem chatLoop_sysPres (step : List Message → ChatMessagePiece → StepResult)
    (hstep : StepSysPres step) (tools : List ToolSchema) (conn : Connector)
    (fuel round : Nat) (log : List Message) (hlen : 2 ≤ log.length) :
    (chatLoop step tools conn fuel round log).log.head? = log.head?
    ∧ 2 ≤ (chatLoop step tools conn fuel round log).log.length
    ∧ countRole Role.system (chatLoop step tools conn fuel round log).log
      = countRole Role.system log := by
  induction fuel generalizing round log with
  | zero => exact ⟨rfl, hlen, rfl⟩
  | succ fuel ih =>
    rcases hc : conn round log tools with ⟨pieces, cErr⟩
    have hrr : (runRound step tools conn round log).log
        = (processPieces step log pieces).log := by
      simp [runRound, hc]
    obtain ⟨hh, hl, hcount⟩ := processPieces_sysPres step hstep log pieces hlen
    rw [← hrr] at hh hl hcount
    simp only [chatLoop]
    cases herr : (runRound step tools conn round log).error with
    | some e => exact ⟨hh, hl, hcount⟩
    | none =>
      by_cases ht : (runRound step tools conn round log).hadTool
      · simp only [ht, if_true]
        obtain ⟨ih1, ih2, ih3⟩ := ih (round + 1) (runRound step tools conn round log).log hl
        exact ⟨ih1.trans hh, ih2, ih3.trans hcount⟩
      · simp only [ht, if_false]
        exact ⟨hh, hl, hcount⟩

theorem edit_length (log : List Message) (i : Nat) (c : String) :
    (Messages.edit log i c).length = log.length := by
  cases h : log[i]? <;> simp [Messages.edit, List.get?_eq_getElem?, h]

/-- C7: turn preparation appends a system message only when the log is
empty and otherwise edits index 0 in place (keeping its role), then
appends the user message; consequently, starting from an empty log or one
whose first entry is a system message, the first entry after preparation
— and after the whole streaming or batch turn — has role `system`, and
the number of system messages is exactly one when starting empty and
unchanged otherwise, so no second system message is ever added. -/
theorem system_prompt_first_invariant (fuel : Nat)
    (router : String → Except PyError String) (clients : String → Option Connector)
    (callables : Callables) (tdm : Tdm) (tools : List ToolSchema)
    (model prompt system_prompt : String) (log : List Message)
    (hsys : log = [] ∨ (log.head?).map Message.role = some Role.system) :
    (_prepare_for_response [] prompt system_prompt
        = [mkMessage .system (some system_prompt) [] none,
           mkMessage .user (some prompt) [] none])
    ∧ (∀ m rest, log = m :: rest →
        _prepare_for_response log prompt system_prompt
          = ({ m with content := some system_prompt } :: rest)
            ++ [mkMessage .user (some prompt) [] none])
    ∧ ((_prepare_for_response log prompt system_prompt).head?).map Message.role
        = some Role.system
    ∧ countRole Role.system (_prepare_for_response log prompt system_prompt)
        = (if log.isEmpty then 1 else countRole Role.system log)
    ∧ (∀ fw, router model = .ok fw →
        (((get_stream_response fuel router clients callables tdm tools model
            prompt system_prompt log).log.head?).map Message.role
          = some Role.system
        ∧ countRole Role.system (get_stream_response fuel router clients callables
            tdm tools model prompt system_prompt log).log
          = (if log.isEmpty then 1 else countRole Role.system log))
        ∧ (((get_json_response fuel router clients callables tdm tools model
            prompt system_prompt log).log.head?).map Message.role
          = some Role.system
        ∧ countRole Role.system (get_json_response fuel router clients callables
            tdm tools model prompt system_prompt log).log
          = (if log.isEmpty then 1 else countRole Role.system log))) := by
  have hshape : ∀ m rest, log = m :: rest →
      _prepare_for_response log prompt system_prompt
        = ({ m with content := some system_prompt } :: rest)
          ++ [mkMessage .user (some prompt) [] none] := by
    intro m rest h
    subst h
    rfl
  have hhead : ((_prepare_for_response log prompt system_prompt).head?).map
      Message.role = some Role.system := by
    rcases hsys with rfl | hrole
    · rfl
    · cases hlog : log with
      | nil =>
        subst hlog
        simp at hrole
      | cons m rest =>
        subst hlog
        rw [hshape m rest rfl]
        simp only [List.head?_cons, List.cons_append, Option.map_some]
        simpa using hrole
  have hcount : countRole Role.system (_prepare_for_response log prompt system_prompt)
      = (if log.isEmpty then 1 else countRole Role.system log) := by
    cases hlog : log with
    | nil => rfl
    | cons m rest =>
      subst hlog
      have hne : (m :: rest).isEmpty = false := rfl
      have hpre : _prepare_for_response (m :: rest) prompt system_prompt
          = Messages.edit (m :: rest) 0 system_prompt
            ++ [mkMessage .user (some prompt) [] none] := by
        simp [_prepare_for_response, Messages.append]
      rw [hpre, countRole_concat, countRole_edit_zero]
      simp [mkMessage, hne]
  have hlen2 : 2 ≤ (_prepare_for_response log prompt system_prompt).length := by
    cases hlog : log with
    | nil => exact Nat.le.refl
    | cons m rest =>
      subst hlog
      rw [hshape m rest rfl]
      simp
  refine ⟨rfl, hshape, hhead, hcount, ?_⟩
  intro fw hfw
  constructor
  · have hlogeq : (get_stream_response fuel router clients callables tdm tools model
        prompt system_prompt log).log
        = (streamLoop callables tdm model tools (connOf clients fw) fuel 0
            (_prepare_for_response log prompt system_prompt)).log := by
      rcases hr : streamLoop callables tdm model tools (connOf clients fw) fuel 0
        (_prepare_for_response log prompt system_prompt) with ⟨l2, evs, outc⟩
      simp only [get_stream_response, hfw, hr]
      cases outc <;> rfl
    obtain ⟨hp1, _, hp3⟩ := chatLoop_sysPres (processPieceStream callables tdm model)
      (stepSysPres_stream callables tdm model) tools (connOf clients fw) fuel 0
      (_prepare_for_response log prompt system_prompt) hlen2
    constructor
    · rw [hlogeq]
      simp only [streamLoop] at hp1 ⊢
      rw [hp1]
      exact hhead
    · rw [hlogeq]
      simp only [streamLoop] at hp3 ⊢
      rw [hp3]
      exact hcount
  · have hlogeq : (get_json_response fuel router clients callables tdm tools model
        prompt system_prompt log).log
        = (jsonLoop callables tdm model tools (connOf clients fw) fuel 0
            (_prepare_for_response log prompt system_prompt)).log := by
      simp only [get_json_response, hfw]
    obtain ⟨hp1, _, hp3⟩ := chatLoop_sysPres (processPieceJson callables tdm model)
      (stepSysPres_json callables tdm model) tools (connOf clients fw) fuel 0
      (_prepare_for_response log prompt system_prompt) hlen2
    constructor
    · rw [hlogeq]
      simp only [jsonLoop] at hp1 ⊢
      rw [hp1]
      exact hhead
    · rw [hlogeq]
      simp only [jsonLoop] at hp3 ⊢
      rw [hp3]
      exact hcount

theorem system_prompt_first_invariant_witness :
    ((get_stream_response 1 routerFix (clientsOf connFix1) cbFix tdmFix toolsFix
        "gpt" "hi" "sys" []).log.head?).map Message.role = some Role.system
    ∧ countRole Role.system (get_json_response 1 routerFix (clientsOf connFix1)
        cbFix tdmFix toolsFix "gpt" "hi" "sys" []).log = 1 :=
  have h := (system_prompt_first_invariant 1 routerFix (clientsOf connFix1) cbFix
    tdmFix toolsFix "gpt" "hi" "sys" [] (Or.inl rfl)).2.2.2.2 "openai" rfl
  ⟨h.1.1, h.2.2⟩

end Eevee
